import Mathlib

/-!
Verification of the deepkit-framework schema-driven serializer core against
its specification. The definitions below are a shallow embedding of the
compiled conversion pipelines that the JIT compiler in the source emits:
the runtime-code-synthesis layer is replaced by direct Lean functions whose
branch structure mirrors the emitted code fragments in
packages/type/src/json-serializer.ts. Components whose source files are not
part of the sample (union.ts, jit.ts, validation.ts and the @deepkit/core
enum helpers) are modelled from the specification and marked as such.
-/

set_option maxRecDepth 8192

namespace Deepkit

/-- Neutral nested data value: the JS-like value universe the pipelines
operate on (undefined, null, booleans, numbers including NaN, strings,
Date objects represented by their canonical ISO string, ordered sequences
and string-keyed mappings). -/
inductive Value : Type where
  | vUndefined : Value
  | vNull : Value
  | vBool (b : Bool) : Value
  | vNum (n : Int) : Value
  | vNaN : Value
  | vStr (s : String) : Value
  | vDate (iso : String) : Value
  | vArr (xs : List Value) : Value
  | vObj (kvs : List (String × Value)) : Value

mutual

/-- Boolean structural equality on neutral values, modelling the strict
equality / deep comparison the emitted guards use on raw input values. -/
def beqV : Value → Value → Bool
  | .vUndefined, .vUndefined => true
  | .vNull, .vNull => true
  | .vBool a, .vBool b => a == b
  | .vNum a, .vNum b => a == b
  | .vNaN, .vNaN => true
  | .vStr a, .vStr b => a == b
  | .vDate a, .vDate b => a == b
  | .vArr a, .vArr b => beqL a b
  | .vObj a, .vObj b => beqO a b
  | _, _ => false

def beqL : List Value → List Value → Bool
  | [], [] => true
  | x :: xs, y :: ys => beqV x y && beqL xs ys
  | _, _ => false

def beqO : List (String × Value) → List (String × Value) → Bool
  | [], [] => true
  | (k, x) :: xs, (l, y) :: ys => k == l && beqV x y && beqO xs ys
  | _, _ => false

end

instance : BEq Value := ⟨beqV⟩

/-- JS string coercion of a neutral value, as produced by the emitted
string-concatenation code; the sequence and mapping cases are coarse, no
claim exercises them. -/
def jsToString : Value → String
  | .vUndefined => "undefined"
  | .vNull => "null"
  | .vBool true => "true"
  | .vBool false => "false"
  | .vNum n => toString n
  | .vNaN => "NaN"
  | .vStr s => s
  | .vDate s => s
  | .vArr _ => ""
  | .vObj _ => "[object Object]"

/-- JS numeric coercion of a string, used by the unary plus in the emitted
number converter: the empty string coerces to 0, a decimal literal to its
value, anything else to NaN. -/
def jsStringToNumber (s : String) : Value :=
  if s = "" then .vNum 0
  else
    match s.toInt? with
    | some n => .vNum n
    | none => .vNaN

/-- JS unary plus coercion on a neutral value (the sequence, mapping and
Date cases are coarse approximations; no claim exercises them). -/
def jsUnaryPlus : Value → Value
  | .vNum n => .vNum n
  | .vNaN => .vNaN
  | .vBool true => .vNum 1
  | .vBool false => .vNum 0
  | .vNull => .vNum 0
  | .vUndefined => .vNaN
  | .vStr s => jsStringToNumber s
  | .vDate _ => .vNaN
  | .vArr _ => .vNaN
  | .vObj _ => .vNaN

/-! ## Primitive conversion steps registered on the json serializer
(packages/type/src/json-serializer.ts). Each definition mirrors one
registered compiler template, with the emitted code fragment replaced by
the function it computes. -/

/-- The toClass string step: keep strings, otherwise apply the JS string
coercion (the emitted code is a typeof test plus concatenation with the
empty string). -/
def compilerToString (v : Value) : Value :=
  match v with
  | .vStr s => .vStr s
  | v => .vStr (jsToString v)

/-- The number step (registered for both directions): keep numbers,
otherwise apply JS unary plus. -/
def compilerToNumber (v : Value) : Value :=
  match v with
  | .vNum n => .vNum n
  | v => jsUnaryPlus v

/-- The toClass literal step: the setter writes the declared literal value
regardless of the source value. -/
def jsonToClassLiteral (literalValue : Value) (_v : Value) : Value :=
  literalValue

/-- The toClass boolean step: booleans pass through; the strings true and 1
and the number 1 become true, the strings false and 0 and the number 0
become false; any other value leaves the target unset (no setter runs),
represented by vUndefined. -/
def jsonToClassBoolean (v : Value) : Value :=
  match v with
  | .vBool b => .vBool b
  | v =>
    if beqV v (.vStr "true") || beqV v (.vStr "1") || beqV v (.vNum 1) then .vBool true
    else if beqV v (.vStr "false") || beqV v (.vStr "0") || beqV v (.vNum 0) then .vBool false
    else .vUndefined

/-! ## Union dispatch (the union compiler registered for both directions in
json-serializer.ts). The compiler builds an if/else-if chain over the
sorted candidate list; each candidate contributes a guard call and, on
match, the candidate conversion produced by getDataConverterJS. The else
branch is chosen by the optional/nullable/default precedence and is built
BEFORE the loop over candidates runs, so the discriminants list it
interpolates into the thrown message is still empty at that point. -/

/-- Compile-time description of a union field, the parts of
PropertyCompilerSchema the union compiler reads. -/
structure UnionProperty : Type where
  name : String
  isOptional : Bool
  isNullable : Bool
  hasManualDefaultValue : Bool
  defaultValue : Value

/-- One union candidate: its type tag, its guard predicate (from
getSortedUnionTypes) and its own conversion step (getDataConverterJS). -/
structure UnionCandidate : Type where
  typeTag : String
  guard : Value → Bool
  convert : Value → Except String Value

/-- The else branch of the emitted union dispatch, as a function of the
discriminants list AT THE TIME THE BRANCH IS BUILT: left unset when the
field is optional, null when nullable, the configured default when one is
set manually, otherwise a thrown error whose message interpolates the
discriminants list. In the source this template literal is evaluated before
the candidate loop pushes any discriminant, so the callers below pass the
empty list. -/
def unionElseBranch (property : UnionProperty) (discriminants : List String) :
    Except String Value :=
  if property.isOptional then .ok .vUndefined
  else if property.isNullable then .ok .vNull
  else if property.hasManualDefaultValue then .ok property.defaultValue
  else .error ("No valid discriminant was found, so could not determine class type. Guard tried: ["
      ++ String.intercalate "," discriminants ++ "].")

/-- The fixed message of the thrown no-matching-variant error: the
discriminants list is interpolated while still empty. -/
def unionNoMatchMessage : String :=
  "No valid discriminant was found, so could not determine class type. Guard tried: []."

/-- The emitted if/else-if chain: guards are called in candidate order, the
first guard returning true selects that candidate conversion, and the else
branch runs when no guard matched. -/
def runGuardChain (cands : List UnionCandidate) (elseBranch : Except String Value)
    (v : Value) : Except String Value :=
  match cands with
  | [] => elseBranch
  | c :: rest => if c.guard v then c.convert v else runGuardChain rest elseBranch v

/-- Modelled from the spec: getSortedUnionTypes of src/union.ts is not in
the sample. Candidates are ordered most-specific first, literal candidates
before generic object-shape candidates, otherwise keeping declaration
order. -/
def getSortedUnionTypes (cands : List UnionCandidate) : List UnionCandidate :=
  cands.filter (fun c => c.typeTag == "literal")
    ++ cands.filter (fun c => !(c.typeTag == "literal"))

/-- The union compiler registered on jsonSerializer.toClass: dispatch over
the sorted candidates with the precomputed else branch (whose discriminants
list is empty at construction time). -/
def jsonToClassUnion (property : UnionProperty) (cands : List UnionCandidate)
    (v : Value) : Except String Value :=
  runGuardChain (getSortedUnionTypes cands) (unionElseBranch property []) v

/-- The union compiler registered on jsonSerializer.fromClass, textually
identical to the toClass one in the source. -/
def jsonFromClassUnion (property : UnionProperty) (cands : List UnionCandidate)
    (v : Value) : Except String Value :=
  runGuardChain (getSortedUnionTypes cands) (unionElseBranch property []) v

/-! ## Enum conversion (the toClass enum compiler in json-serializer.ts).
The helpers getEnumValues, getEnumLabels, isValidEnumValue and
getValidEnumValue live in the @deepkit/core package, which is not in the
sample; they are modelled from the spec wording: the declared enum value
set, plus the labels when labels are permitted. -/

/-- A declared enum: ordered labels paired with their values. -/
structure EnumDef : Type where
  entries : List (String × Value)

/-- Modelled from the spec: getEnumLabels of @deepkit/core (not in the
sample) returns the declared labels in order. -/
def getEnumLabels (e : EnumDef) : List String :=
  e.entries.map Prod.fst

/-- Modelled from the spec: getEnumValues of @deepkit/core (not in the
sample) returns the declared value set in order. -/
def getEnumValues (e : EnumDef) : List Value :=
  e.entries.map Prod.snd

/-- Modelled from the spec: isValidEnumValue of @deepkit/core (not in the
sample) accepts a value inside the declared value set, or a label when
labels are permitted. -/
def isValidEnumValue (e : EnumDef) (v : Value) (allowLabelsAsValue : Bool) : Bool :=
  (getEnumValues e).contains v
    || (allowLabelsAsValue &&
        (match v with
         | .vStr l => (getEnumLabels e).contains l
         | _ => false))

/-- Modelled from the spec: getValidEnumValue of @deepkit/core (not in the
sample) returns a declared value unchanged and resolves a permitted label
to its value; anything else stays undefined. -/
def getValidEnumValue (e : EnumDef) (v : Value) (allowLabelsAsValue : Bool) : Value :=
  if (getEnumValues e).contains v then v
  else if allowLabelsAsValue then
    match v with
    | .vStr l =>
      match e.entries.find? (fun kv => kv.fst == l) with
      | some kv => kv.snd
      | none => .vUndefined
    | _ => .vUndefined
  else .vUndefined

/-- The complete valid set listed in the thrown enum message: the declared
values, then the labels when labels are permitted (the source pushes the
labels onto the values array before joining). -/
def enumValidSet (e : EnumDef) (allowLabelsAsValue : Bool) : List Value :=
  getEnumValues e ++ (if allowLabelsAsValue then (getEnumLabels e).map .vStr else [])

/-- The toClass enum compiler of json-serializer.ts: a defined value
outside the valid set throws an error listing the offending value and the
complete valid set, otherwise the setter writes the resolved enum value. -/
def jsonToClassEnum (e : EnumDef) (allowLabelsAsValue : Bool) (propertyName : String)
    (v : Value) : Except String Value :=
  if !(beqV v .vUndefined) && !(isValidEnumValue e v allowLabelsAsValue) then
    .error ("Invalid ENUM given in property " ++ propertyName ++ ": " ++ jsToString v
      ++ ", valid: " ++ String.intercalate "," ((enumValidSet e allowLabelsAsValue).map jsToString))
  else
    .ok (getValidEnumValue e v allowLabelsAsValue)

/-! ## Nested class conversion (the toClass class compiler in
json-serializer.ts) for a target schema without a decorator. An object
input (and not a sequence) runs the nested pipeline directly, errors
propagating; a string input on a non-reference field is tried as embedded
JSON inside try/catch, so a parse failure or a nested conversion failure is
swallowed and the field stays unset; every other input leaves the field
unset. JSON.parse is the external JS builtin, passed as the parameter
named parse. A null input would make the emitted typeof test itself throw,
modelled by the TypeError case. -/

def jsonToClassClassNonDecorator (isReference : Bool)
    (xToClass : Value → Except String Value)
    (parse : String → Option Value) (v : Value) : Except String Value :=
  match v with
  | .vObj kvs => xToClass (.vObj kvs)
  | .vNull => .error "TypeError: Cannot read properties of null"
  | .vStr s =>
    if isReference then .ok .vUndefined
    else
      match parse s with
      | none => .ok .vUndefined
      | some j =>
        match xToClass j with
        | .ok r => .ok r
        | .error _ => .ok .vUndefined
  | _ => .ok .vUndefined

/-! ## Validation entry points. The plain validate lives in
src/validation.ts which is not in the sample; it is modelled from the spec
as a total function from data to the ordered list of field errors. The
throwing wrapper validatedPlainToClass is from json-serializer.ts. -/

/-- One field error, as the spec gives its shape. -/
structure FieldError : Type where
  path : String
  code : String
  message : String
deriving DecidableEq

/-- The aggregate error raised by the throwing validation entry point,
carrying the full error list. -/
structure ValidationFailed : Type where
  errors : List FieldError
deriving DecidableEq

/-- validatedPlainToClass of json-serializer.ts: run plain validate first,
throw ValidationFailed carrying the full list when it is non-empty, else
decode the data with plainToClass. The parameters validate and plainToClass
stand for the compiled validator (modelled from the spec, src/validation.ts
is not in the sample) and the compiled decode pipeline. -/
def validatedPlainToClass (validate : Value → List FieldError)
    (plainToClass : Value → Value) (data : Value) : Except ValidationFailed Value :=
  let errors := validate data
  if errors.length != 0 then .error ⟨errors⟩
  else .ok (plainToClass data)

/-! ## Object decode pipeline with default handling. The per-field wrapper
is emitted by createXToClassFunction in src/jit.ts, which is not in the
sample; it is modelled from the spec: when the source value is absent (or
undefined) the configured default is written, or the field stays unset;
a null source value passes through as null when the field is nullable;
otherwise the type-specific registered step runs. -/

/-- Property access on the neutral mapping: the first binding of the name,
none when the name is absent. -/
def lookupField (kvs : List (String × Value)) (name : String) : Option Value :=
  match kvs with
  | [] => none
  | (k, v) :: rest => if k == name then some v else lookupField rest name

/-- Compile-time description of one schema field for the object pipeline:
name, modifiers, default, and the type-specific conversion step resolved
from the registry. -/
structure FieldSchema : Type where
  name : String
  isOptional : Bool
  isNullable : Bool
  hasDefaultValue : Bool
  defaultValue : Value
  convert : Value → Except String Value

/-- Modelled from the spec: the default-handling wrapper around one field
step (src/jit.ts is not in the sample). vUndefined as the result means the
field stays unset on the target. -/
def decodeFieldWithDefaults (f : FieldSchema) (input : Option Value) :
    Except String Value :=
  match input with
  | none => if f.hasDefaultValue then .ok f.defaultValue else .ok .vUndefined
  | some .vUndefined => if f.hasDefaultValue then .ok f.defaultValue else .ok .vUndefined
  | some .vNull => if f.isNullable then .ok .vNull else f.convert .vNull
  | some v => f.convert v

/-- Modelled from the spec: the assembled decode pipeline walks the schema
fields in declaration order, reads each source value by name, applies the
default-handling wrapper, and materialises every field whose result is not
unset. -/
def decodeObjectFields (fields : List FieldSchema) (kvs : List (String × Value)) :
    Except String (List (String × Value)) :=
  match fields with
  | [] => .ok []
  | f :: rest => do
    let v ← decodeFieldWithDefaults f (lookupField kvs f.name)
    let restOut ← decodeObjectFields rest kvs
    match v with
    | .vUndefined => pure restOut
    | v => pure ((f.name, v) :: restOut)

/-- Modelled from the spec: the compiled decode pipeline for a whole
schema, building a new entity value from a neutral mapping. -/
def xToClassObject (fields : List FieldSchema) (v : Value) : Except String Value :=
  match v with
  | .vObj kvs => (decodeObjectFields fields kvs).map .vObj
  | _ => .error "input is not an object"

/-- A plain string field (no modifiers, no default) whose type step is the
registered toClass string compiler. -/
def stringField (name : String) : FieldSchema :=
  { name := name, isOptional := false, isNullable := false,
    hasDefaultValue := false, defaultValue := .vUndefined,
    convert := fun v => .ok (compilerToString v) }

/-- A plain number field (no modifiers, no default) whose type step is the
registered number compiler. -/
def numberField (name : String) : FieldSchema :=
  { name := name, isOptional := false, isNullable := false,
    hasDefaultValue := false, defaultValue := .vUndefined,
    convert := fun v => .ok (compilerToNumber v) }

/-- The Product schema of the scenario: id number primary auto-increment,
category string, title string, price number, rating number with default 0.
The primary and auto-increment markers do not influence the decode
pipeline and are not represented. -/
def productSchema : List FieldSchema :=
  [ numberField "id",
    stringField "category",
    stringField "title",
    numberField "price",
    { numberField "rating" with hasDefaultValue := true, defaultValue := .vNum 0 } ]

/-! ## Concrete union instances used by the spec scenario: candidates with
literals a and b, plus a generic object-shape candidate with one number
field x. The guards are modelled from the spec (src/union.ts is not in the
sample): a literal guard is equality with the literal value, an
object-shape guard accepts mappings. -/

/-- Modelled from the spec: the guard and conversion of a literal union
candidate; the conversion is the registered toClass literal step. -/
def literalCandidate (lit : Value) : UnionCandidate :=
  { typeTag := "literal",
    guard := fun v => beqV v lit,
    convert := fun v => .ok (jsonToClassLiteral lit v) }

/-- The candidate schema with the single number field x. -/
def shapeXSchema : List FieldSchema :=
  [numberField "x"]

/-- Modelled from the spec: the object-shape union candidate; its guard
accepts mappings and its conversion is the nested class pipeline (the
embedded-string fallback never fires behind this guard, the parse argument
is irrelevant). -/
def shapeXCandidate : UnionCandidate :=
  { typeTag := "class",
    guard := fun v => match v with | .vObj _ => true | _ => false,
    convert := fun v =>
      jsonToClassClassNonDecorator false (xToClassObject shapeXSchema) (fun _ => none) v }

/-- The union field of the scenario: not optional, not nullable, no
configured default. -/
def exampleUnionProperty : UnionProperty :=
  { name := "myUnionField", isOptional := false, isNullable := false,
    hasManualDefaultValue := false, defaultValue := .vUndefined }

/-- An optional variant of the scenario union field. -/
def exampleOptionalProperty : UnionProperty :=
  { exampleUnionProperty with isOptional := true }

/-- A nullable variant of the scenario union field. -/
def exampleNullableProperty : UnionProperty :=
  { exampleUnionProperty with isNullable := true }

/-- A variant of the scenario union field with a configured default. -/
def exampleDefaultProperty : UnionProperty :=
  { exampleUnionProperty with hasManualDefaultValue := true, defaultValue := .vStr "a" }

/-- The two-candidate union of the scenario: literals a and b. -/
def exampleLiteralCandidates : List UnionCandidate :=
  [literalCandidate (.vStr "a"), literalCandidate (.vStr "b")]

/-- The three-candidate union of the scenario: literals a and b, then the
object shape with field x. -/
def exampleThreeCandidates : List UnionCandidate :=
  [literalCandidate (.vStr "a"), literalCandidate (.vStr "b"), shapeXCandidate]

/-- The union fallback precedence in the words of the spec, for comparison
with the compiled dispatch: if the field is optional the output is left
unset; else if nullable the output is set to null; else if a default value
is configured the output is set to the default; only otherwise does the
conversion fail. -/
def specUnionFallback (property : UnionProperty) : Except String Value :=
  if property.isOptional then .ok .vUndefined
  else if property.isNullable then .ok .vNull
  else if property.hasManualDefaultValue then .ok property.defaultValue
  else .error unionNoMatchMessage

/-! ## The field-type universe for the round-trip property. The primitive,
literal and enum steps are the registered json serializer compilers above;
sequences, mappings and nested classes follow the spec description of the
assembled pipelines (src/jit.ts and src/serializer-compiler.ts are not in
the sample), and type tags without a registered fromClass compiler fall
through to the default step that assigns the value unchanged. Date values
are represented by their canonical ISO string, since the new Date and
toJSON builtins the source calls are external and mutually inverse on
canonical strings. -/

mutual

/-- A field type: primitives, enums, ordered sequences, string-keyed
mappings, and nested entity schemas. -/
inductive FieldType : Type where
  | tString : FieldType
  | tNumber : FieldType
  | tBoolean : FieldType
  | tDate : FieldType
  | tEnum (e : EnumDef) (allowLabelsAsValue : Bool) : FieldType
  | tArray (elem : FieldType) : FieldType
  | tMap (elem : FieldType) : FieldType
  | tClass (fields : SchemaFields) : FieldType

/-- An ordered schema: field names paired with their types. -/
inductive SchemaFields : Type where
  | nil : SchemaFields
  | cons (name : String) (t : FieldType) (rest : SchemaFields) : SchemaFields

end

mutual

/-- Structural size of a field type, for strong induction. -/
def sizeT : FieldType → Nat
  | .tArray t => sizeT t + 1
  | .tMap t => sizeT t + 1
  | .tClass fs => sizeF fs + 1
  | _ => 1

/-- Structural size of a schema, for strong induction. -/
def sizeF : SchemaFields → Nat
  | .nil => 1
  | .cons _ t rest => sizeT t + sizeF rest + 1

end

/-- The declared field names of a schema, in order. -/
def fieldNames : SchemaFields → List String
  | .nil => []
  | .cons name _ rest => name :: fieldNames rest

/-- No field name occurs twice in the schema. -/
def namesNodup : SchemaFields → Bool
  | .nil => true
  | .cons name _ rest => !((fieldNames rest).contains name) && namesNodup rest

/-- Elementwise conversion of an ordered sequence, failing on the first
failing element. -/
def mapExc (f : Value → Except String Value) : List Value → Except String (List Value)
  | [] => .ok []
  | x :: xs => do
    let y ← f x
    let ys ← mapExc f xs
    pure (y :: ys)

/-- Elementwise conversion of the values of a string-keyed mapping. -/
def mapExcSnd (f : Value → Except String Value) :
    List (String × Value) → Except String (List (String × Value))
  | [] => .ok []
  | (k, v) :: rest => do
    let w ← f v
    let restOut ← mapExcSnd f rest
    pure ((k, w) :: restOut)

mutual

/-- The decode pipeline over the field-type universe. String, number,
boolean and enum are the registered toClass steps of json-serializer.ts;
the date step models the new Date builtin on the canonical string;
sequences, mappings and nested classes are modelled from the spec as the
recursively assembled pipeline. -/
def decodeT (propertyName : String) : FieldType → Value → Except String Value
  | .tString, v => .ok (compilerToString v)
  | .tNumber, v => .ok (compilerToNumber v)
  | .tBoolean, v => .ok (jsonToClassBoolean v)
  | .tDate, v =>
    match v with
    | .vStr s => .ok (.vDate s)
    | .vDate s => .ok (.vDate s)
    | v => .ok (.vDate (jsToString v))
  | .tEnum e allow, v => jsonToClassEnum e allow propertyName v
  | .tArray t, v =>
    match v with
    | .vArr xs => (mapExc (fun x => decodeT propertyName t x) xs).map .vArr
    | _ => .error ("Only arrays allowed for " ++ propertyName)
  | .tMap t, v =>
    match v with
    | .vObj kvs => (mapExcSnd (fun x => decodeT propertyName t x) kvs).map .vObj
    | _ => .error ("Only objects allowed for " ++ propertyName)
  | .tClass fs, v =>
    match v with
    | .vObj kvs => (decodeFieldsT fs kvs).map .vObj
    | _ => .error ("Only objects allowed for " ++ propertyName)

/-- The decode pipeline for a schema: each declared field reads its source
value by name and converts it; absent fields stay unset. -/
def decodeFieldsT : SchemaFields → List (String × Value) → Except String (List (String × Value))
  | .nil, _ => .ok []
  | .cons name t rest, kvs =>
    match lookupField kvs name with
    | none => decodeFieldsT rest kvs
    | some v => do
      let w ← decodeT name t v
      let restOut ← decodeFieldsT rest kvs
      pure ((name, w) :: restOut)

end

mutual

/-- The encode pipeline over the field-type universe. Number is the
registered fromClass step; the date step models toJSON on the canonical
string; string, boolean and enum have no registered fromClass compiler and
fall through to the default step assigning the value unchanged (modelled
from the spec); sequences, mappings and nested classes recurse. -/
def encodeT : FieldType → Value → Except String Value
  | .tString, v => .ok v
  | .tNumber, v => .ok (compilerToNumber v)
  | .tBoolean, v => .ok v
  | .tDate, v =>
    match v with
    | .vDate s => .ok (.vStr s)
    | _ => .error "toJSON is not a function"
  | .tEnum _ _, v => .ok v
  | .tArray t, v =>
    match v with
    | .vArr xs => (mapExc (fun x => encodeT t x) xs).map .vArr
    | _ => .error "not an array"
  | .tMap t, v =>
    match v with
    | .vObj kvs => (mapExcSnd (fun x => encodeT t x) kvs).map .vObj
    | _ => .error "not an object"
  | .tClass fs, v =>
    match v with
    | .vObj kvs => (encodeFieldsT fs kvs).map .vObj
    | _ => .error "not an object"

/-- The encode pipeline for a schema: each declared field reads the entity
property by name and converts it; unset properties stay absent. -/
def encodeFieldsT : SchemaFields → List (String × Value) → Except String (List (String × Value))
  | .nil, _ => .ok []
  | .cons name t rest, kvs =>
    match lookupField kvs name with
    | none => encodeFieldsT rest kvs
    | some v => do
      let w ← encodeT t v
      let restOut ← encodeFieldsT rest kvs
      pure ((name, w) :: restOut)

end

/-- cloneClass of json-serializer.ts: serialize the entity, then
deserialize the result with the same scoped serializer. -/
def cloneClass (propertyName : String) (t : FieldType) (v : Value) : Except String Value :=
  (encodeT t v).bind (decodeT propertyName t)

mutual

/-- Well-formed entity value of a field type: the canonical class-side
representation the encode pipeline expects. -/
def wfEntity : FieldType → Value → Bool
  | .tString, v => match v with | .vStr _ => true | _ => false
  | .tNumber, v => match v with | .vNum _ => true | _ => false
  | .tBoolean, v => match v with | .vBool _ => true | _ => false
  | .tDate, v => match v with | .vDate _ => true | _ => false
  | .tEnum e _, v => (getEnumValues e).contains v
  | .tArray t, v => match v with | .vArr xs => wfEntityList t xs | _ => false
  | .tMap t, v => match v with | .vObj kvs => wfEntityPairs t kvs | _ => false
  | .tClass fs, v =>
    match v with
    | .vObj kvs => namesNodup fs && wfEntityFields fs kvs
    | _ => false

/-- Every element of the sequence is a well-formed entity value. -/
def wfEntityList : FieldType → List Value → Bool
  | _, [] => true
  | t, x :: xs => wfEntity t x && wfEntityList t xs

/-- Every value of the mapping is a well-formed entity value. -/
def wfEntityPairs : FieldType → List (String × Value) → Bool
  | _, [] => true
  | t, (_, v) :: rest => wfEntity t v && wfEntityPairs t rest

/-- The entity properties correspond to the schema fields, in declaration
order, each value well-formed. -/
def wfEntityFields : SchemaFields → List (String × Value) → Bool
  | .nil, kvs => kvs.isEmpty
  | .cons name t rest, kvs =>
    match kvs with
    | [] => false
    | (k, v) :: tail => k == name && wfEntity t v && wfEntityFields rest tail

end

mutual

/-- Well-formed plain value of a field type: the canonical external
representation the decode pipeline expects. -/
def wfPlain : FieldType → Value → Bool
  | .tString, v => match v with | .vStr _ => true | _ => false
  | .tNumber, v => match v with | .vNum _ => true | _ => false
  | .tBoolean, v => match v with | .vBool _ => true | _ => false
  | .tDate, v => match v with | .vStr _ => true | _ => false
  | .tEnum e _, v => (getEnumValues e).contains v
  | .tArray t, v => match v with | .vArr xs => wfPlainList t xs | _ => false
  | .tMap t, v => match v with | .vObj kvs => wfPlainPairs t kvs | _ => false
  | .tClass fs, v =>
    match v with
    | .vObj kvs => namesNodup fs && wfPlainFields fs kvs
    | _ => false

/-- Every element of the sequence is a well-formed plain value. -/
def wfPlainList : FieldType → List Value → Bool
  | _, [] => true
  | t, x :: xs => wfPlain t x && wfPlainList t xs

/-- Every value of the mapping is a well-formed plain value. -/
def wfPlainPairs : FieldType → List (String × Value) → Bool
  | _, [] => true
  | t, (_, v) :: rest => wfPlain t v && wfPlainPairs t rest

/-- The plain keys correspond to the schema fields, in declaration order,
each value well-formed. -/
def wfPlainFields : SchemaFields → List (String × Value) → Bool
  | .nil, kvs => kvs.isEmpty
  | .cons name t rest, kvs =>
    match kvs with
    | [] => false
    | (k, v) :: tail => k == name && wfPlain t v && wfPlainFields rest tail

end

/-- The enum of the round-trip example: labels small and big with values 0
and 1. -/
def exampleEnum : EnumDef :=
  ⟨[("small", .vNum 0), ("big", .vNum 1)]⟩

/-- The schema of the round-trip example: one field of every claimed kind,
with a nested entity. -/
def exampleSchema : SchemaFields :=
  .cons "id" .tNumber
    (.cons "name" .tString
      (.cons "active" .tBoolean
        (.cons "created" .tDate
          (.cons "size" (.tEnum exampleEnum true)
            (.cons "tags" (.tArray .tString)
              (.cons "scores" (.tMap .tNumber)
                (.cons "child" (.tClass (.cons "x" .tNumber .nil)) .nil)))))))

/-- The entity type of the round-trip example. -/
def exampleEntityType : FieldType :=
  .tClass exampleSchema

/-- A well-formed entity value of the example schema. -/
def exampleEntity : Value :=
  .vObj [("id", .vNum 2), ("name", .vStr "Car"), ("active", .vBool true),
    ("created", .vDate "2021-01-01T00:00:00.000Z"), ("size", .vNum 1),
    ("tags", .vArr [.vStr "a", .vStr "b"]), ("scores", .vObj [("m", .vNum 3)]),
    ("child", .vObj [("x", .vNum 5)])]

/-- A well-formed plain value of the example schema. -/
def examplePlain : Value :=
  .vObj [("id", .vNum 2), ("name", .vStr "Car"), ("active", .vBool false),
    ("created", .vStr "2021-01-01T00:00:00.000Z"), ("size", .vNum 0),
    ("tags", .vArr [.vStr "c"]), ("scores", .vObj [("m", .vNum 4)]),
    ("child", .vObj [("x", .vNum 7)])]

/-! ## Helper lemmas on the union dispatch. -/

/-- Sorting the candidates does not change membership. -/
theorem mem_getSortedUnionTypes (c : UnionCandidate) (cands : List UnionCandidate) :
    c ∈ getSortedUnionTypes cands ↔ c ∈ cands := by
  simp only [getSortedUnionTypes, List.mem_append, List.mem_filter]
  by_cases h : c.typeTag == "literal" <;> simp [h]

/-- The emitted guard chain returns the conversion of the first candidate
whose guard accepts the value, and the else branch when none does. -/
theorem runGuardChain_eq_find (cands : List UnionCandidate)
    (elseBranch : Except String Value) (v : Value) :
    runGuardChain cands elseBranch v
      = match cands.find? (fun c => c.guard v) with
        | some c => c.convert v
        | none => elseBranch := by
  induction cands with
  | nil => rfl
  | cons c rest ih =>
    by_cases h : c.guard v <;> simp [runGuardChain, List.find?_cons, h, ih]

/-- With no matching guard the chain falls through to the else branch. -/
theorem runGuardChain_no_match (cands : List UnionCandidate)
    (elseBranch : Except String Value) (v : Value)
    (h : ∀ c ∈ cands, c.guard v = false) :
    runGuardChain cands elseBranch v = elseBranch := by
  induction cands with
  | nil => rfl
  | cons c rest ih =>
    have hc : c.guard v = false := h c (by simp)
    simp only [runGuardChain, hc, if_neg Bool.false_ne_true, Bool.false_eq_true, if_false]
    exact ih (fun d hd => h d (by simp [hd]))

/-- The else branch built with the empty discriminants list follows the
optional, nullable, default precedence and otherwise throws the fixed
message. -/
theorem unionElseBranch_empty (property : UnionProperty) :
    unionElseBranch property []
      = if property.isOptional then .ok .vUndefined
        else if property.isNullable then .ok .vNull
        else if property.hasManualDefaultValue then .ok property.defaultValue
        else .error unionNoMatchMessage := by
  have hs : ("No valid discriminant was found, so could not determine class type. Guard tried: ["
      ++ String.intercalate "," [] ++ "].") = unionNoMatchMessage := by decide
  simp [unionElseBranch, hs]

/-! ## Claim theorems. -/

/-- C1, counterexample: for the union with literal candidates a and b, on a
non-optional, non-nullable, defaultless field, input z makes the pipeline
throw — but the thrown message is the fixed string whose discriminant list
is empty, so it neither lists the tried discriminants a,b nor names the
field, contrary to the claim. -/
theorem c1_counterexample :
    jsonToClassUnion exampleUnionProperty exampleLiteralCandidates (.vStr "z")
      = .error unionNoMatchMessage
    ∧ ¬ ("a,b".data <:+: unionNoMatchMessage.data)
    ∧ ¬ ("myUnionField".data <:+: unionNoMatchMessage.data) :=
  ⟨rfl, by decide, by decide⟩

/-- C1, amended: when no candidate guard matches and the field is neither
optional nor nullable and has no configured default, the pipeline fails
with the no-matching-union-variant error whose message is the fixed text
with an empty discriminant list (the message template interpolates the
discriminants array before the candidate loop populates it) and does not
name the field. -/
theorem c1_amended (property : UnionProperty) (cands : List UnionCandidate)
    (v : Value) (hopt : property.isOptional = false)
    (hnull : property.isNullable = false)
    (hdef : property.hasManualDefaultValue = false)
    (hguards : ∀ c ∈ cands, c.guard v = false) :
    jsonToClassUnion property cands v = .error unionNoMatchMessage := by
  have h2 : ∀ c ∈ getSortedUnionTypes cands, c.guard v = false :=
    fun c hc => hguards c ((mem_getSortedUnionTypes c cands).mp hc)
  rw [jsonToClassUnion, runGuardChain_no_match _ _ _ h2, unionElseBranch_empty,
    hopt, hnull, hdef]
  simp

/-- C1, witness: the amended statement evaluated on the two-literal union
at input z. -/
theorem c1_amended_witness :
    jsonToClassUnion exampleUnionProperty exampleLiteralCandidates (.vStr "z")
      = .error unionNoMatchMessage :=
  c1_amended exampleUnionProperty exampleLiteralCandidates (.vStr "z")
    rfl rfl rfl (by decide)

/-- C2: the compiled union dispatch evaluates the guards of the sorted
candidate list in order and the first guard accepting the input selects
that candidate conversion, no later candidate being considered; on the
scenario candidates (literals a and b, then the object shape with field x)
the sorted order keeps the literals first, input a selects candidate 1 and
input with x equal to 5 selects candidate 3. -/
theorem c2_union_first_match :
    (∀ (property : UnionProperty) (cands : List UnionCandidate) (v : Value),
      jsonToClassUnion property cands v
        = match (getSortedUnionTypes cands).find? (fun c => c.guard v) with
          | some c => c.convert v
          | none => unionElseBranch property [])
    ∧ getSortedUnionTypes exampleThreeCandidates = exampleThreeCandidates
    ∧ (getSortedUnionTypes exampleThreeCandidates).find?
        (fun c => c.guard (.vStr "a")) = some (literalCandidate (.vStr "a"))
    ∧ jsonToClassUnion exampleUnionProperty exampleThreeCandidates (.vStr "a")
        = .ok (.vStr "a")
    ∧ (getSortedUnionTypes exampleThreeCandidates).find?
        (fun c => c.guard (.vObj [("x", .vNum 5)])) = some shapeXCandidate
    ∧ jsonToClassUnion exampleUnionProperty exampleThreeCandidates
        (.vObj [("x", .vNum 5)]) = .ok (.vObj [("x", .vNum 5)]) :=
  ⟨fun property cands v => runGuardChain_eq_find (getSortedUnionTypes cands)
      (unionElseBranch property []) v,
    rfl, rfl, rfl, rfl, rfl⟩

/-- C3: in both directions, when no candidate guard matches, the compiled
union dispatch realises exactly the fallback precedence the spec states:
optional leaves the output unset, else nullable sets null, else a
configured default is written, only otherwise does the conversion fail. -/
theorem c3_union_fallback_precedence (property : UnionProperty)
    (cands : List UnionCandidate) (v : Value)
    (hguards : ∀ c ∈ cands, c.guard v = false) :
    jsonToClassUnion property cands v = specUnionFallback property
    ∧ jsonFromClassUnion property cands v = specUnionFallback property := by
  have h2 : ∀ c ∈ getSortedUnionTypes cands, c.guard v = false :=
    fun c hc => hguards c ((mem_getSortedUnionTypes c cands).mp hc)
  constructor
  · rw [jsonToClassUnion, runGuardChain_no_match _ _ _ h2, unionElseBranch_empty]
    rfl
  · rw [jsonFromClassUnion, runGuardChain_no_match _ _ _ h2, unionElseBranch_empty]
    rfl

/-- C3, witness: the four fallback branches evaluated on the two-literal
union at the unmatched input z, in both directions. -/
theorem c3_union_fallback_precedence_witness :
    jsonToClassUnion exampleOptionalProperty exampleLiteralCandidates (.vStr "z")
      = .ok .vUndefined
    ∧ jsonFromClassUnion exampleNullableProperty exampleLiteralCandidates (.vStr "z")
      = .ok .vNull
    ∧ jsonToClassUnion exampleDefaultProperty exampleLiteralCandidates (.vStr "z")
      = .ok (.vStr "a")
    ∧ jsonFromClassUnion exampleUnionProperty exampleLiteralCandidates (.vStr "z")
      = .error unionNoMatchMessage :=
  ⟨((c3_union_fallback_precedence exampleOptionalProperty exampleLiteralCandidates
      (.vStr "z") (by decide)).1).trans rfl,
    ((c3_union_fallback_precedence exampleNullableProperty exampleLiteralCandidates
      (.vStr "z") (by decide)).2).trans rfl,
    ((c3_union_fallback_precedence exampleDefaultProperty exampleLiteralCandidates
      (.vStr "z") (by decide)).1).trans rfl,
    ((c3_union_fallback_precedence exampleUnionProperty exampleLiteralCandidates
      (.vStr "z") (by decide)).2).trans rfl⟩

/-- C4: when the decode pipeline for a nested-schema field receives a
string and parsing it as embedded JSON fails, the failure is swallowed and
the field is left unset; the step returns successfully, so no error
propagates to the caller. -/
theorem c4_nested_string_parse_failure_swallowed (isReference : Bool)
    (xToClass : Value → Except String Value) (parse : String → Option Value)
    (s : String) (h : parse s = none) :
    jsonToClassClassNonDecorator isReference xToClass parse (.vStr s)
      = .ok .vUndefined := by
  cases isReference <;> simp [jsonToClassClassNonDecorator, h]

/-- C4, witness: a non-parseable string input on the shape-x nested field
is left unset without failing. -/
theorem c4_nested_string_parse_failure_swallowed_witness :
    jsonToClassClassNonDecorator false (xToClassObject shapeXSchema)
      (fun _ => none) (.vStr "not json") = .ok .vUndefined :=
  c4_nested_string_parse_failure_swallowed false (xToClassObject shapeXSchema)
    (fun _ => none) "not json" rfl

/-- C5: the throwing validation entry point raises ValidationFailed
carrying the full error list exactly when plain validate returns a
non-empty list, and on an empty list returns the decoded entity; plain
validate is a total function into error lists and never raises. -/
theorem c5_validate_and_throw (validate : Value → List FieldError)
    (plainToClass : Value → Value) (data : Value) :
    (validatedPlainToClass validate plainToClass data = .error ⟨validate data⟩
      ↔ validate data ≠ [])
    ∧ (validate data = []
      → validatedPlainToClass validate plainToClass data = .ok (plainToClass data)) := by
  unfold validatedPlainToClass
  by_cases h : validate data = []
  · simp [h]
  · have hlen : (validate data).length ≠ 0 := by
      simpa [List.length_eq_zero] using h
    simp [h, hlen]

/-- C5, witness: a one-error validator makes the entry point throw the
aggregate carrying that list, and an error-free validator makes it return
the decoded entity. -/
theorem c5_validate_and_throw_witness :
    validatedPlainToClass (fun _ => [⟨"title", "required", "No value given"⟩])
      (fun v => v) .vNull
      = .error ⟨[⟨"title", "required", "No value given"⟩]⟩
    ∧ validatedPlainToClass (fun _ => []) (fun v => v) (.vStr "ok")
      = .ok (.vStr "ok") :=
  ⟨(c5_validate_and_throw (fun _ => [⟨"title", "required", "No value given"⟩])
      (fun v => v) .vNull).1.mpr (by decide),
    (c5_validate_and_throw (fun _ => []) (fun v => v) (.vStr "ok")).2 rfl⟩

/-- C6: decoding the Product scenario input with id and rating absent
succeeds, writes the configured default 0 to rating, and leaves id unset
on the resulting entity. -/
theorem c6_product_default_decode :
    xToClassObject productSchema
      (.vObj [("category", .vStr "toys"), ("title", .vStr "Car"), ("price", .vNum 499)])
      = .ok (.vObj [("category", .vStr "toys"), ("title", .vStr "Car"),
        ("price", .vNum 499), ("rating", .vNum 0)])
    ∧ lookupField [("category", .vStr "toys"), ("title", .vStr "Car"),
        ("price", .vNum 499), ("rating", .vNum 0)] "id" = none
    ∧ lookupField [("category", .vStr "toys"), ("title", .vStr "Car"),
        ("price", .vNum 499), ("rating", .vNum 0)] "rating" = some (.vNum 0) :=
  ⟨rfl, rfl, rfl⟩

/-- C7: a defined enum input outside the declared value set, and outside
the labels when labels are permitted, makes the conversion throw an error
whose message carries the offending value and the joined complete valid
set: the declared values followed by the labels when permitted. -/
theorem c7_invalid_enum_error (e : EnumDef) (allowLabelsAsValue : Bool)
    (propertyName : String) (v : Value) (hdef : beqV v .vUndefined = false)
    (hinv : isValidEnumValue e v allowLabelsAsValue = false) :
    jsonToClassEnum e allowLabelsAsValue propertyName v
      = .error ("Invalid ENUM given in property " ++ propertyName ++ ": "
        ++ jsToString v ++ ", valid: "
        ++ String.intercalate "," ((enumValidSet e allowLabelsAsValue).map jsToString)) := by
  simp [jsonToClassEnum, hdef, hinv]

/-- C7, witness: the label-permitting size enum rejects the string huge
with the message listing it and the full valid set 0,1,small,big. -/
theorem c7_invalid_enum_error_witness :
    jsonToClassEnum exampleEnum true "size" (.vStr "huge")
      = .error "Invalid ENUM given in property size: huge, valid: 0,1,small,big" :=
  (c7_invalid_enum_error exampleEnum true "size" (.vStr "huge") rfl (by decide)).trans
    (congrArg Except.error (by decide))

/-! ## Round-trip machinery for C8. -/

/-- Field types have positive size. -/
theorem sizeT_pos (t : FieldType) : 1 ≤ sizeT t := by
  cases t <;> simp [sizeT]

/-- Schemas have positive size. -/
theorem sizeF_pos (fs : SchemaFields) : 1 ≤ sizeF fs := by
  cases fs <;> simp [sizeF]

/-- If every element converts forward and back, the elementwise sequence
conversion does too. -/
theorem mapExc_roundtrip (f g : Value → Except String Value) (xs : List Value)
    (h : ∀ x ∈ xs, ∃ y, f x = .ok y ∧ g y = .ok x) :
    ∃ ys, mapExc f xs = .ok ys ∧ mapExc g ys = .ok xs := by
  induction xs with
  | nil => exact ⟨[], rfl, rfl⟩
  | cons x xs ih =>
    obtain ⟨y, hf, hg⟩ := h x (by simp)
    obtain ⟨ys, hfs, hgs⟩ := ih (fun a ha => h a (by simp [ha]))
    refine ⟨y :: ys, ?_, ?_⟩
    · simp only [mapExc, hf, hfs]
      rfl
    · simp only [mapExc, hg, hgs]
      rfl

/-- If every value converts forward and back, the elementwise mapping
conversion does too, preserving the keys. -/
theorem mapExcSnd_roundtrip (f g : Value → Except String Value)
    (kvs : List (String × Value))
    (h : ∀ kv ∈ kvs, ∃ w, f kv.snd = .ok w ∧ g w = .ok kv.snd) :
    ∃ out, mapExcSnd f kvs = .ok out ∧ mapExcSnd g out = .ok kvs := by
  induction kvs with
  | nil => exact ⟨[], rfl, rfl⟩
  | cons kv rest ih =>
    obtain ⟨k, v⟩ := kv
    obtain ⟨w, hf, hg⟩ := h (k, v) (by simp)
    obtain ⟨out, hfs, hgs⟩ := ih (fun a ha => h a (by simp [ha]))
    refine ⟨(k, w) :: out, ?_, ?_⟩
    · simp only [mapExcSnd, hf, hfs]
      rfl
    · simp only [mapExcSnd, hg, hgs]
      rfl

/-- Property access skips a binding with a different name. -/
theorem lookupField_cons_ne (k name : String) (v : Value)
    (kvs : List (String × Value)) (h : (k == name) = false) :
    lookupField ((k, v) :: kvs) name = lookupField kvs name := by
  simp [lookupField, h]

/-- A name outside the contains result of a cons list is unequal to the
head and outside the tail. -/
theorem contains_cons_false (name k : String) (rest : List String)
    (h : ((name :: rest).contains k) = false) :
    (k == name) = false ∧ rest.contains k = false := by
  rw [List.contains_cons] at h
  have hcases := Bool.or_eq_false_iff.mp h
  refine ⟨?_, hcases.2⟩
  have hne : ¬(name = k) := by
    intro he
    rw [he] at hcases
    simp at hcases
  simp [beq_iff_eq]
  exact fun he => hne he.symm

/-- A schema that does not declare the name of the leading binding decodes
the tail mapping identically. -/
theorem decodeFieldsT_skip :
    ∀ (fs : SchemaFields) (k : String) (v : Value) (kvs : List (String × Value)),
      (fieldNames fs).contains k = false →
      decodeFieldsT fs ((k, v) :: kvs) = decodeFieldsT fs kvs
  | .nil, _, _, _, _ => rfl
  | .cons name t rest, k, v, kvs, h => by
    obtain ⟨hk, hrest⟩ := contains_cons_false name k (fieldNames rest) h
    simp only [decodeFieldsT, lookupField_cons_ne k name v kvs hk,
      decodeFieldsT_skip rest k v kvs hrest]

/-- A schema that does not declare the name of the leading property encodes
the tail entity identically. -/
theorem encodeFieldsT_skip :
    ∀ (fs : SchemaFields) (k : String) (v : Value) (kvs : List (String × Value)),
      (fieldNames fs).contains k = false →
      encodeFieldsT fs ((k, v) :: kvs) = encodeFieldsT fs kvs
  | .nil, _, _, _, _ => rfl
  | .cons name t rest, k, v, kvs, h => by
    obtain ⟨hk, hrest⟩ := contains_cons_false name k (fieldNames rest) h
    simp only [encodeFieldsT, lookupField_cons_ne k name v kvs hk,
      encodeFieldsT_skip rest k v kvs hrest]

/-- Elements of a well-formed plain sequence are well-formed. -/
theorem wfPlainList_mem (t : FieldType) (xs : List Value)
    (h : wfPlainList t xs = true) : ∀ x ∈ xs, wfPlain t x = true := by
  induction xs with
  | nil => simp
  | cons x xs ih =>
    rw [wfPlainList, Bool.and_eq_true] at h
    intro a ha
    rcases List.mem_cons.mp ha with he | hm
    · exact he ▸ h.1
    · exact ih h.2 a hm

/-- Values of a well-formed plain mapping are well-formed. -/
theorem wfPlainPairs_mem (t : FieldType) (kvs : List (String × Value))
    (h : wfPlainPairs t kvs = true) : ∀ kv ∈ kvs, wfPlain t kv.snd = true := by
  induction kvs with
  | nil => simp
  | cons kv kvs ih =>
    obtain ⟨k, v⟩ := kv
    rw [wfPlainPairs, Bool.and_eq_true] at h
    intro a ha
    rcases List.mem_cons.mp ha with he | hm
    · exact he ▸ h.1
    · exact ih h.2 a hm

/-- Elements of a well-formed entity sequence are well-formed. -/
theorem wfEntityList_mem (t : FieldType) (xs : List Value)
    (h : wfEntityList t xs = true) : ∀ x ∈ xs, wfEntity t x = true := by
  induction xs with
  | nil => simp
  | cons x xs ih =>
    rw [wfEntityList, Bool.and_eq_true] at h
    intro a ha
    rcases List.mem_cons.mp ha with he | hm
    · exact he ▸ h.1
    · exact ih h.2 a hm

/-- Values of a well-formed entity mapping are well-formed. -/
theorem wfEntityPairs_mem (t : FieldType) (kvs : List (String × Value))
    (h : wfEntityPairs t kvs = true) : ∀ kv ∈ kvs, wfEntity t kv.snd = true := by
  induction kvs with
  | nil => simp
  | cons kv kvs ih =>
    obtain ⟨k, v⟩ := kv
    rw [wfEntityPairs, Bool.and_eq_true] at h
    intro a ha
    rcases List.mem_cons.mp ha with he | hm
    · exact he ▸ h.1
    · exact ih h.2 a hm

/-- A declared enum value converts to itself through the enum step. -/
theorem jsonToClassEnum_valid (e : EnumDef) (allowLabelsAsValue : Bool)
    (propertyName : String) (v : Value)
    (h : (getEnumValues e).contains v = true) :
    jsonToClassEnum e allowLabelsAsValue propertyName v = .ok v := by
  have hv : isValidEnumValue e v allowLabelsAsValue = true := by
    simp [isValidEnumValue, h]
  simp [jsonToClassEnum, hv, getValidEnumValue, h]

/-- Strong induction on structural size: every well-formed plain value
decodes successfully and encodes back to itself, for field types and for
schemas. -/
theorem rtPlainAux (n : Nat) :
    (∀ (propertyName : String) (t : FieldType), sizeT t ≤ n →
      ∀ p, wfPlain t p = true →
      ∃ v, decodeT propertyName t p = .ok v ∧ encodeT t v = .ok p)
    ∧ (∀ fs : SchemaFields, sizeF fs ≤ n →
      ∀ kvs, namesNodup fs = true → wfPlainFields fs kvs = true →
      ∃ out, decodeFieldsT fs kvs = .ok out ∧ encodeFieldsT fs out = .ok kvs) := by
  induction n with
  | zero =>
    constructor
    · intro propertyName t hsize
      exact absurd hsize (by have := sizeT_pos t; omega)
    · intro fs hsize
      exact absurd hsize (by have := sizeF_pos fs; omega)
  | succ n ih =>
    constructor
    · intro propertyName t hsize p hwf
      cases t with
      | tString =>
        cases p <;> simp [wfPlain] at hwf
        case vStr s => exact ⟨.vStr s, rfl, rfl⟩
      | tNumber =>
        cases p <;> simp [wfPlain] at hwf
        case vNum m => exact ⟨.vNum m, rfl, rfl⟩
      | tBoolean =>
        cases p <;> simp [wfPlain] at hwf
        case vBool b => exact ⟨.vBool b, rfl, rfl⟩
      | tDate =>
        cases p <;> simp [wfPlain] at hwf
        case vStr s => exact ⟨.vDate s, rfl, rfl⟩
      | tEnum e allow =>
        have hc : (getEnumValues e).contains p = true := by
          simpa [wfPlain] using hwf
        exact ⟨p, jsonToClassEnum_valid e allow propertyName p hc, rfl⟩
      | tArray t =>
        cases p <;> simp [wfPlain] at hwf
        case vArr xs =>
        have hsize2 : sizeT t ≤ n := by
          simp [sizeT] at hsize
          omega
        have helem : ∀ x ∈ xs,
            ∃ y, decodeT propertyName t x = .ok y ∧ encodeT t y = .ok x :=
          fun x hx => ih.1 propertyName t hsize2 x (wfPlainList_mem t xs hwf x hx)
        obtain ⟨ys, hdec, henc⟩ := mapExc_roundtrip
          (fun x => decodeT propertyName t x) (fun y => encodeT t y) xs helem
        refine ⟨.vArr ys, ?_, ?_⟩
        · simp only [decodeT, hdec]
          rfl
        · simp only [encodeT, henc]
          rfl
      | tMap t =>
        cases p <;> simp [wfPlain] at hwf
        case vObj kvs =>
        have hsize2 : sizeT t ≤ n := by
          simp [sizeT] at hsize
          omega
        have helem : ∀ kv ∈ kvs,
            ∃ w, decodeT propertyName t kv.snd = .ok w ∧ encodeT t w = .ok kv.snd :=
          fun kv hkv => ih.1 propertyName t hsize2 kv.snd
            (wfPlainPairs_mem t kvs hwf kv hkv)
        obtain ⟨out, hdec, henc⟩ := mapExcSnd_roundtrip
          (fun x => decodeT propertyName t x) (fun y => encodeT t y) kvs helem
        refine ⟨.vObj out, ?_, ?_⟩
        · simp only [decodeT, hdec]
          rfl
        · simp only [encodeT, henc]
          rfl
      | tClass fs =>
        cases p <;> simp [wfPlain] at hwf
        case vObj kvs =>
        have hsize2 : sizeF fs ≤ n := by
          simp [sizeT] at hsize
          omega
        obtain ⟨out, hdec, henc⟩ := ih.2 fs hsize2 kvs hwf.1 hwf.2
        refine ⟨.vObj out, ?_, ?_⟩
        · simp only [decodeT, hdec]
          rfl
        · simp only [encodeT, henc]
          rfl
    · intro fs hsize kvs hnodup hwf
      cases fs with
      | nil =>
        have hkvs : kvs = [] := by
          simpa [wfPlainFields] using hwf
        subst hkvs
        exact ⟨[], rfl, rfl⟩
      | cons name t rest =>
        cases kvs with
        | nil => simp [wfPlainFields] at hwf
        | cons kv tail =>
          obtain ⟨k, v⟩ := kv
          simp only [wfPlainFields, Bool.and_eq_true] at hwf
          obtain ⟨⟨hkname, hwfv⟩, hwftail⟩ := hwf
          have hk : k = name := by simpa [beq_iff_eq] using hkname
          subst hk
          simp only [namesNodup, Bool.and_eq_true, Bool.not_eq_true'] at hnodup
          obtain ⟨hn1, hn2⟩ := hnodup
          have hs1 : sizeT t ≤ n := by
            simp [sizeF] at hsize
            have := sizeF_pos rest
            omega
          have hs2 : sizeF rest ≤ n := by
            simp [sizeF] at hsize
            have := sizeT_pos t
            omega
          obtain ⟨w, hdw, hew⟩ := ih.1 k t hs1 v hwfv
          obtain ⟨outRest, hdrest, herest⟩ := ih.2 rest hs2 tail hn2 hwftail
          refine ⟨(k, w) :: outRest, ?_, ?_⟩
          · simp only [decodeFieldsT, lookupField, beq_self_eq_true, if_true,
              decodeFieldsT_skip rest k v tail hn1, hdw, hdrest]
            rfl
          · simp only [encodeFieldsT, lookupField, beq_self_eq_true, if_true,
              encodeFieldsT_skip rest k w outRest hn1, hew, herest]
            rfl

/-- Strong induction on structural size: every well-formed entity value
encodes successfully and decodes back to itself, for field types and for
schemas. -/
theorem rtEntityAux (n : Nat) :
    (∀ (propertyName : String) (t : FieldType), sizeT t ≤ n →
      ∀ v, wfEntity t v = true →
      ∃ p, encodeT t v = .ok p ∧ decodeT propertyName t p = .ok v)
    ∧ (∀ fs : SchemaFields, sizeF fs ≤ n →
      ∀ kvs, namesNodup fs = true → wfEntityFields fs kvs = true →
      ∃ out, encodeFieldsT fs kvs = .ok out ∧ decodeFieldsT fs out = .ok kvs) := by
  induction n with
  | zero =>
    constructor
    · intro propertyName t hsize
      exact absurd hsize (by have := sizeT_pos t; omega)
    · intro fs hsize
      exact absurd hsize (by have := sizeF_pos fs; omega)
  | succ n ih =>
    constructor
    · intro propertyName t hsize v hwf
      cases t with
      | tString =>
        cases v <;> simp [wfEntity] at hwf
        case vStr s => exact ⟨.vStr s, rfl, rfl⟩
      | tNumber =>
        cases v <;> simp [wfEntity] at hwf
        case vNum m => exact ⟨.vNum m, rfl, rfl⟩
      | tBoolean =>
        cases v <;> simp [wfEntity] at hwf
        case vBool b => exact ⟨.vBool b, rfl, rfl⟩
      | tDate =>
        cases v <;> simp [wfEntity] at hwf
        case vDate s => exact ⟨.vStr s, rfl, rfl⟩
      | tEnum e allow =>
        have hc : (getEnumValues e).contains v = true := by
          simpa [wfEntity] using hwf
        exact ⟨v, rfl, jsonToClassEnum_valid e allow propertyName v hc⟩
      | tArray t =>
        cases v <;> simp [wfEntity] at hwf
        case vArr xs =>
        have hsize2 : sizeT t ≤ n := by
          simp [sizeT] at hsize
          omega
        have helem : ∀ x ∈ xs,
            ∃ y, encodeT t x = .ok y ∧ decodeT propertyName t y = .ok x :=
          fun x hx => ih.1 propertyName t hsize2 x (wfEntityList_mem t xs hwf x hx)
        obtain ⟨ys, henc, hdec⟩ := mapExc_roundtrip
          (fun x => encodeT t x) (fun y => decodeT propertyName t y) xs helem
        refine ⟨.vArr ys, ?_, ?_⟩
        · simp only [encodeT, henc]
          rfl
        · simp only [decodeT, hdec]
          rfl
      | tMap t =>
        cases v <;> simp [wfEntity] at hwf
        case vObj kvs =>
        have hsize2 : sizeT t ≤ n := by
          simp [sizeT] at hsize
          omega
        have helem : ∀ kv ∈ kvs,
            ∃ w, encodeT t kv.snd = .ok w ∧ decodeT propertyName t w = .ok kv.snd :=
          fun kv hkv => ih.1 propertyName t hsize2 kv.snd
            (wfEntityPairs_mem t kvs hwf kv hkv)
        obtain ⟨out, henc, hdec⟩ := mapExcSnd_roundtrip
          (fun x => encodeT t x) (fun y => decodeT propertyName t y) kvs helem
        refine ⟨.vObj out, ?_, ?_⟩
        · simp only [encodeT, henc]
          rfl
        · simp only [decodeT, hdec]
          rfl
      | tClass fs =>
        cases v <;> simp [wfEntity] at hwf
        case vObj kvs =>
        have hsize2 : sizeF fs ≤ n := by
          simp [sizeT] at hsize
          omega
        obtain ⟨out, henc, hdec⟩ := ih.2 fs hsize2 kvs hwf.1 hwf.2
        refine ⟨.vObj out, ?_, ?_⟩
        · simp only [encodeT, henc]
          rfl
        · simp only [decodeT, hdec]
          rfl
    · intro fs hsize kvs hnodup hwf
      cases fs with
      | nil =>
        have hkvs : kvs = [] := by
          simpa [wfEntityFields] using hwf
        subst hkvs
        exact ⟨[], rfl, rfl⟩
      | cons name t rest =>
        cases kvs with
        | nil => simp [wfEntityFields] at hwf
        | cons kv tail =>
          obtain ⟨k, v⟩ := kv
          simp only [wfEntityFields, Bool.and_eq_true] at hwf
          obtain ⟨⟨hkname, hwfv⟩, hwftail⟩ := hwf
          have hk : k = name := by simpa [beq_iff_eq] using hkname
          subst hk
          simp only [namesNodup, Bool.and_eq_true, Bool.not_eq_true'] at hnodup
          obtain ⟨hn1, hn2⟩ := hnodup
          have hs1 : sizeT t ≤ n := by
            simp [sizeF] at hsize
            have := sizeF_pos rest
            omega
          have hs2 : sizeF rest ≤ n := by
            simp [sizeF] at hsize
            have := sizeT_pos t
            omega
          obtain ⟨w, hew, hdw⟩ := ih.1 k t hs1 v hwfv
          obtain ⟨outRest, herest, hdrest⟩ := ih.2 rest hs2 tail hn2 hwftail
          refine ⟨(k, w) :: outRest, ?_, ?_⟩
          · simp only [encodeFieldsT, lookupField, beq_self_eq_true, if_true,
              encodeFieldsT_skip rest k v tail hn1, hew, herest]
            rfl
          · simp only [decodeFieldsT, lookupField, beq_self_eq_true, if_true,
              decodeFieldsT_skip rest k w outRest hn1, hdw, hdrest]
            rfl

/-- C8: for every field type of the modelled universe — primitives,
sequences, mappings, nested entity schemas, and enums — decoding the
encoding of a well-formed entity value returns it, encoding the decoding
of a well-formed plain value returns it, and cloneClass, the composition
of serialize and deserialize, returns its input. -/
theorem c8_round_trip :
    (∀ (propertyName : String) (t : FieldType) (v : Value), wfEntity t v = true →
      (encodeT t v).bind (decodeT propertyName t) = .ok v)
    ∧ (∀ (propertyName : String) (t : FieldType) (p : Value), wfPlain t p = true →
      (decodeT propertyName t p).bind (encodeT t) = .ok p)
    ∧ (∀ (propertyName : String) (t : FieldType) (v : Value), wfEntity t v = true →
      cloneClass propertyName t v = .ok v) := by
  have hent : ∀ (propertyName : String) (t : FieldType) (v : Value),
      wfEntity t v = true → (encodeT t v).bind (decodeT propertyName t) = .ok v := by
    intro propertyName t v hwf
    obtain ⟨p, he, hd⟩ := (rtEntityAux (sizeT t)).1 propertyName t le_rfl v hwf
    rw [he]
    simpa using hd
  refine ⟨hent, ?_, ?_⟩
  · intro propertyName t p hwf
    obtain ⟨v, hd, he⟩ := (rtPlainAux (sizeT t)).1 propertyName t le_rfl p hwf
    rw [hd]
    simpa using he
  · intro propertyName t v hwf
    exact hent propertyName t v hwf

/-- C8, witness: the example schema with one field of every claimed kind
round-trips its concrete entity and plain values, and cloneClass returns
the entity unchanged. -/
theorem c8_round_trip_witness :
    (encodeT exampleEntityType exampleEntity).bind (decodeT "product" exampleEntityType)
      = .ok exampleEntity
    ∧ (decodeT "product" exampleEntityType examplePlain).bind (encodeT exampleEntityType)
      = .ok examplePlain
    ∧ cloneClass "product" exampleEntityType exampleEntity = .ok exampleEntity :=
  ⟨c8_round_trip.1 "product" exampleEntityType exampleEntity (by decide),
    c8_round_trip.2.1 "product" exampleEntityType examplePlain (by decide),
    c8_round_trip.2.2 "product" exampleEntityType exampleEntity (by decide)⟩

end Deepkit
